import Mathlib

/-!
# Verification of the Sierpinski Triangle Emulator core (src/main.rs)

Shallow embedding of the chaos-game application in `src/main.rs`:

* `Point` models `iced::Point` (two `f32` coordinates).  All claims under
  verification concern exact midpoint arithmetic on small dyadic values, so
  the coordinates are embedded as rationals, on which `(a + b) / 2` is the
  exact midpoint the spec describes.
* `SierpinskiGraph` models the `SierpinskiGraph` struct (the render `Cache`
  and the fixed `bound` carry no verified state and are omitted).
* The process-wide random source `rand::thread_rng()` is embedded as an
  injected stream `rng : ℕ → ℕ`; `gen_range(0..len)` yields `rng i % len`
  (an arbitrary in-range index) and panics on an empty range, which the
  embedding renders as `none`.
* The `while` loop in the `SetMaxIter` arm is embedded as the fueled
  recursion `growPoints`; fuel `target` is provably sufficient, since each
  iteration appends exactly one point.
* Rust's `max_iter as usize` cast (i32 → usize, sign-extending) is
  `usizeOfI32 : k ↦ (k % 2^64).toNat`.
* Panics (`gen_range` on an empty range, hence the whole `update` arm that
  reaches it) are modelled by `Option`: `none` is a panic.
-/

namespace Sierpinski

/-- A canvas point, mirroring `iced::Point { x: f32, y: f32 }`;
coordinates embedded as exact rationals. -/
structure Point where
  x : ℚ
  y : ℚ
deriving DecidableEq, Repr

/-- Componentwise midpoint `((a.x + b.x) / 2, (a.y + b.y) / 2)`. -/
def Point.midpoint (a b : Point) : Point :=
  ⟨(a.x + b.x) / 2, (a.y + b.y) / 2⟩

/-- The `Message` enum of the application (`main.rs:26-32`). -/
inductive Message where
  | SetMaxIter (k : ℤ)
  | SetCurIter (c : ℤ)
  | DrawCurIter (c : ℤ)
  | AddFixPoint (p : Point)
  | RemoveFixPoint
deriving DecidableEq, Repr

/-- The `SierpinskiGraph` struct (`main.rs:147-154`), minus the render
cache and the constant canvas bound, which hold no verified state. -/
structure SierpinskiGraph where
  max_iter : ℤ
  cur_iter : ℤ
  fix_points : List Point
  random_points : List Point
deriving DecidableEq, Repr

/-- `SierpinskiGraph::new` (`main.rs:213-222`). -/
def SierpinskiGraph.new : SierpinskiGraph :=
  { max_iter := 0, cur_iter := 0, fix_points := [], random_points := [] }

/-- Rust's `as usize` cast applied to an `i32` value on a 64-bit target:
sign-extend and reinterpret, i.e. reduce modulo `2^64`. -/
def usizeOfI32 (k : ℤ) : ℕ :=
  (k % (2 : ℤ) ^ 64).toNat

/-- The `cur_point` expression of `gen_rand_point` (`main.rs:231-235`):
the last generated point if one exists, otherwise the first fixed vertex. -/
def SierpinskiGraph.base_point (g : SierpinskiGraph) : Point :=
  g.random_points.getLast?.getD (g.fix_points.getD 0 ⟨0, 0⟩)

/-- `SierpinskiGraph::gen_rand_point` (`main.rs:228-241`).  The random
draw `rand::thread_rng().gen_range(0..len)` becomes `r % len` for the
injected stream value `r`; with an empty `fix_points` the range `0..0` is
empty and `gen_range` panics, rendered as `none`. -/
def SierpinskiGraph.gen_rand_point (g : SierpinskiGraph) (r : ℕ) : Option Point :=
  if g.fix_points.isEmpty then none
  else
    let dest_point := g.fix_points.getD (r % g.fix_points.length) ⟨0, 0⟩
    let cur_point := g.base_point
    some ⟨(dest_point.x + cur_point.x) / 2, (dest_point.y + cur_point.y) / 2⟩

/-- The `while self.graph.random_points.len() < max_iter as usize` loop of
the `SetMaxIter` arm (`main.rs:62-65`), fueled.  Each iteration draws the
next stream value `rng pos`, appends the generated point, and recurses;
a panic inside `gen_rand_point` aborts the whole loop with `none`. -/
def growPoints (rng : ℕ → ℕ) (pos : ℕ) (target : ℕ) :
    ℕ → SierpinskiGraph → Option SierpinskiGraph
  | 0, g => some g
  | fuel + 1, g =>
    if g.random_points.length < target then
      match g.gen_rand_point (rng pos) with
      | none => none
      | some p =>
        growPoints rng (pos + 1) target fuel
          { g with random_points := g.random_points ++ [p] }
    else some g

/-- `Application::update` for `SierpinskiEmulator` (`main.rs:54-93`),
restricted to its effect on the `graph` field (the slider widget states and
the render-cache clear in `redraw` carry no verified state).  `none` models
a panic. -/
def update (g : SierpinskiGraph) (rng : ℕ → ℕ) (m : Message) : Option SierpinskiGraph :=
  match m with
  | .SetMaxIter max_iter =>
    growPoints rng 0 (usizeOfI32 max_iter) (usizeOfI32 max_iter)
      { g with max_iter := max_iter }
  | .SetCurIter cur_iter =>
    some { g with cur_iter := if cur_iter > g.max_iter then g.max_iter else cur_iter }
  | .AddFixPoint point =>
    some { g with fix_points := g.fix_points ++ [point],
                  random_points := [], max_iter := 0, cur_iter := 0 }
  | .RemoveFixPoint =>
    some { g with fix_points := g.fix_points.dropLast,
                  random_points := [], max_iter := 0, cur_iter := 0 }
  | .DrawCurIter cur_iter =>
    some { g with cur_iter := cur_iter }

/-- The points rendered by `Program::draw` (`main.rs:196-201`): the slice
`random_points[0..cur_iter as usize]`.  (The Rust slice panics when the
bound exceeds the length; `List.take` truncates instead, which agrees with
the slice whenever the bound is in range.) -/
def SierpinskiGraph.visible_points (g : SierpinskiGraph) : List Point :=
  g.random_points.take (usizeOfI32 g.cur_iter)

/-- Mouse buttons distinguished by `Program::update` (`main.rs:172-178`). -/
inductive MouseButton where
  | Left
  | Right
  | OtherButton
deriving DecidableEq, Repr

/-- Mouse events distinguished by `Program::update`. -/
inductive MouseEvent where
  | ButtonPressed (b : MouseButton)
  | OtherMouse
deriving DecidableEq, Repr

/-- Canvas events distinguished by `Program::update` (`main.rs:169-183`). -/
inductive CanvasEvent where
  | Mouse (e : MouseEvent)
  | OtherEvent
deriving DecidableEq, Repr

/-- `iced::canvas::event::Status`. -/
inductive EventStatus where
  | Captured
  | Ignored
deriving DecidableEq, Repr

/-- `Program::update` for `SierpinskiGraph` (`main.rs:157-184`).  The
argument `cursor_position_in` is the result of
`cursor.position_in(&bounds)`: `some p` when the cursor is inside the
canvas bounds (with `p` the in-bounds position), `none` otherwise. -/
def programUpdate (ev : CanvasEvent) (cursor_position_in : Option Point) :
    EventStatus × Option Message :=
  match cursor_position_in with
  | none => (.Ignored, none)
  | some pos =>
    match ev with
    | .Mouse me =>
      let message : Option Message :=
        match me with
        | .ButtonPressed .Left => some (.AddFixPoint pos)
        | .ButtonPressed .Right => some .RemoveFixPoint
        | _ => none
      (.Captured, message)
    | .OtherEvent => (.Ignored, none)

/-- The messages the running application can actually deliver to `update`:
`SetMaxIter` and `SetCurIter` only arise from sliders with range
`0..=10000` (`main.rs:117-137`); `AddFixPoint`/`RemoveFixPoint` arise from
canvas clicks; `DrawCurIter` is declared but constructed nowhere in the
program, so it is never delivered. -/
def validMessage : Message → Prop
  | .SetMaxIter k => 0 ≤ k ∧ k ≤ 10000
  | .SetCurIter c => 0 ≤ c ∧ c ≤ 10000
  | .DrawCurIter _ => False
  | .AddFixPoint _ => True
  | .RemoveFixPoint => True

/-- States reachable from the initial state by deliverable messages whose
processing does not panic. -/
inductive Reachable : SierpinskiGraph → Prop where
  | init : Reachable SierpinskiGraph.new
  | step (g g' : SierpinskiGraph) (rng : ℕ → ℕ) (m : Message) :
      Reachable g → validMessage m → update g rng m = some g' → Reachable g'

/-- A fixed all-zeroes random stream, used to instantiate witnesses. -/
def rng0 : ℕ → ℕ := fun _ => 0

/-- Membership in the bounding box of the vertex set
`{(100,100), (0,0), (200,0)}` of the spec's scenario:
`x ∈ [0, 200]`, `y ∈ [0, 100]`. -/
def inBox (p : Point) : Prop :=
  0 ≤ p.x ∧ p.x ≤ 200 ∧ 0 ≤ p.y ∧ p.y ≤ 100

example : usizeOfI32 3 = 3 := by decide
example : usizeOfI32 (-1) = 2 ^ 64 - 1 := by decide

/-! ## Helper lemmas -/

lemma gen_rand_point_eq (g : SierpinskiGraph) (r : ℕ) (h : g.fix_points ≠ []) :
    g.gen_rand_point r =
      some (Point.midpoint (g.fix_points.getD (r % g.fix_points.length) ⟨0, 0⟩)
        g.base_point) := by
  simp [SierpinskiGraph.gen_rand_point, Point.midpoint, h]

lemma gen_rand_point_isSome (g : SierpinskiGraph) (r : ℕ) (h : g.fix_points ≠ []) :
    ∃ p, g.gen_rand_point r = some p := by
  exact ⟨_, gen_rand_point_eq g r h⟩

lemma gen_rand_point_empty (g : SierpinskiGraph) (r : ℕ) (h : g.fix_points = []) :
    g.gen_rand_point r = none := by
  simp [SierpinskiGraph.gen_rand_point, h]

/-- If the generated sequence already has `target` points, the growth loop
is a no-op. -/
lemma growPoints_of_le (rng : ℕ → ℕ) (pos target fuel : ℕ) (g : SierpinskiGraph)
    (h : target ≤ g.random_points.length) :
    growPoints rng pos target fuel g = some g := by
  cases fuel with
  | zero => rfl
  | succ fuel => simp [growPoints, Nat.not_lt.mpr h]

/-- With a non-empty vertex set and sufficient fuel, the growth loop
succeeds, extends the sequence to length `max target previous`, keeps the
previous points as an unchanged initial segment, and touches no other
field. -/
lemma growPoints_spec (rng : ℕ → ℕ) (target : ℕ) :
    ∀ (fuel pos : ℕ) (g : SierpinskiGraph), g.fix_points ≠ [] →
      target - g.random_points.length ≤ fuel →
      ∃ g', growPoints rng pos target fuel g = some g' ∧
        g'.random_points.length = max target g.random_points.length ∧
        g'.random_points.take g.random_points.length = g.random_points ∧
        g'.fix_points = g.fix_points ∧
        g'.max_iter = g.max_iter ∧
        g'.cur_iter = g.cur_iter := by
  intro fuel
  induction fuel with
  | zero =>
    intro pos g hfix hfuel
    refine ⟨g, rfl, ?_, by simp, rfl, rfl, rfl⟩
    omega
  | succ fuel ih =>
    intro pos g hfix hfuel
    by_cases hlen : g.random_points.length < target
    · obtain ⟨p, hp⟩ := gen_rand_point_isSome g (rng pos) hfix
      have hstep : growPoints rng pos target (fuel + 1) g =
          growPoints rng (pos + 1) target fuel
            { g with random_points := g.random_points ++ [p] } := by
        simp [growPoints, hlen, hp]
      obtain ⟨g', hg', hlen', htake', hfix', hmax', hcur'⟩ :=
        ih (pos + 1) { g with random_points := g.random_points ++ [p] }
          hfix (by simp; omega)
      refine ⟨g', hstep ▸ hg', ?_, ?_, hfix', hmax', hcur'⟩
      · simp at hlen'
        omega
      · have h1 : g'.random_points.take g.random_points.length =
            (g'.random_points.take (g.random_points.length + 1)).take
              g.random_points.length := by
          rw [List.take_take]
          simp
        rw [h1]
        simp at htake'
        rw [htake']
        simp
    · exact ⟨g, growPoints_of_le rng pos target (fuel + 1) g (by omega),
        by omega, by simp, rfl, rfl, rfl⟩

/-- Every point appended by the growth loop satisfies any property `Q` that
holds of all fixed vertices and all previously generated points and is
closed under midpoints. -/
lemma growPoints_preserves (Q : Point → Prop)
    (hQmid : ∀ a b, Q a → Q b → Q (Point.midpoint a b)) (rng : ℕ → ℕ)
    (target : ℕ) :
    ∀ (fuel pos : ℕ) (g g' : SierpinskiGraph),
      growPoints rng pos target fuel g = some g' →
      (∀ p ∈ g.fix_points, Q p) → (∀ p ∈ g.random_points, Q p) →
      ∀ p ∈ g'.random_points, Q p := by
  intro fuel
  induction fuel with
  | zero =>
    intro pos g g' hg hfix hrand
    cases hg
    exact hrand
  | succ fuel ih =>
    intro pos g g' hg hfix hrand
    by_cases hlen : g.random_points.length < target
    · by_cases hfe : g.fix_points = []
      · rw [growPoints, if_pos hlen, gen_rand_point_empty g (rng pos) hfe] at hg
        cases hg
      · obtain ⟨p, hp⟩ := gen_rand_point_isSome g (rng pos) hfe
        rw [growPoints, if_pos hlen, hp] at hg
        have hpQ : Q p := by
          rw [gen_rand_point_eq g (rng pos) hfe] at hp
          have hdest : Q (g.fix_points.getD (rng pos % g.fix_points.length) ⟨0, 0⟩) := by
            apply hfix
            have hlt : rng pos % g.fix_points.length < g.fix_points.length :=
              Nat.mod_lt _ (List.length_pos.mpr hfe)
            rw [List.getD_eq_getElem?_getD, List.getElem?_eq_getElem hlt]
            simp [List.getElem_mem]
          have hbase : Q g.base_point := by
            unfold SierpinskiGraph.base_point
            cases hlast : g.random_points.getLast? with
            | none =>
              simp only [hlast, Option.getD_none]
              apply hfix
              rw [List.getD_eq_getElem?_getD,
                List.getElem?_eq_getElem (List.length_pos.mpr hfe)]
              simp [List.getElem_mem]
            | some q =>
              simp only [hlast, Option.getD_some]
              obtain ⟨hne, hq⟩ :=
                List.mem_getLast?_eq_getLast
                  (show q ∈ g.random_points.getLast? from hlast ▸ rfl)
              exact hrand q (hq ▸ List.getLast_mem hne)
          have := hQmid _ _ hdest hbase
          simpa using (Option.some_inj.mp hp) ▸ this
        refine ih (pos + 1) _ g' hg (by simpa using hfix) ?_
        intro q hq
        rcases List.mem_append.mp hq with h | h
        · exact hrand q h
        · simpa using (List.mem_singleton.mp h) ▸ hpQ
    · rw [growPoints_of_le rng pos target (fuel + 1) g (by omega)] at hg
      cases hg
      exact hrand

lemma usizeOfI32_of_nonneg (k : ℤ) (h0 : 0 ≤ k) (h1 : k < 2 ^ 64) :
    (usizeOfI32 k : ℤ) = k := by
  unfold usizeOfI32
  omega

/-- The growth loop touches only `random_points`. -/
lemma growPoints_fields (rng : ℕ → ℕ) (target : ℕ) :
    ∀ (fuel pos : ℕ) (g g' : SierpinskiGraph),
      growPoints rng pos target fuel g = some g' →
      g'.fix_points = g.fix_points ∧ g'.max_iter = g.max_iter ∧
        g'.cur_iter = g.cur_iter := by
  intro fuel
  induction fuel with
  | zero =>
    intro pos g g' hg
    cases hg
    exact ⟨rfl, rfl, rfl⟩
  | succ fuel ih =>
    intro pos g g' hg
    by_cases hlen : g.random_points.length < target
    · cases hp : g.gen_rand_point (rng pos) with
      | none => simp [growPoints, hlen, hp] at hg
      | some p =>
        have hg' : growPoints rng (pos + 1) target fuel
            { g with random_points := g.random_points ++ [p] } = some g' := by
          simpa [growPoints, hlen, hp] using hg
        simpa using ih (pos + 1) _ g' hg'
    · rw [growPoints, if_neg hlen] at hg
      cases hg
      exact ⟨rfl, rfl, rfl⟩

/-- With an empty vertex set the growth loop can only return without
having entered its body (otherwise `gen_rand_point` panics). -/
lemma growPoints_empty_fix (rng : ℕ → ℕ) (pos target fuel : ℕ)
    (g g' : SierpinskiGraph) (hfix : g.fix_points = [])
    (h : growPoints rng pos target fuel g = some g') :
    g' = g ∧ (fuel = 0 ∨ target ≤ g.random_points.length) := by
  cases fuel with
  | zero =>
    cases h
    exact ⟨rfl, Or.inl rfl⟩
  | succ fuel =>
    rw [growPoints] at h
    by_cases hlen : g.random_points.length < target
    · rw [if_pos hlen, gen_rand_point_empty g (rng pos) hfix] at h
      cases h
    · rw [if_neg hlen] at h
      cases h
      exact ⟨rfl, Or.inr (by omega)⟩

/-- In every reachable state both counters are non-negative. -/
lemma reachable_nonneg (g : SierpinskiGraph) (hg : Reachable g) :
    0 ≤ g.max_iter ∧ 0 ≤ g.cur_iter := by
  induction hg with
  | init => exact ⟨le_refl 0, le_refl 0⟩
  | step g g' rng m hg hvalid hup ih =>
    cases m with
    | SetMaxIter k =>
      simp only [update] at hup
      obtain ⟨-, hmax, hcur⟩ := growPoints_fields rng _ _ _ _ _ hup
      exact ⟨hmax ▸ hvalid.1, hcur ▸ ih.2⟩
    | SetCurIter c =>
      simp only [update, Option.some_inj] at hup
      subst hup
      refine ⟨ih.1, ?_⟩
      by_cases hc : c > g.max_iter <;> simp [hc, ih.1, hvalid.1]
    | DrawCurIter c => exact hvalid.elim
    | AddFixPoint p =>
      simp only [update, Option.some_inj] at hup
      subst hup
      exact ⟨le_refl 0, le_refl 0⟩
    | RemoveFixPoint =>
      simp only [update, Option.some_inj] at hup
      subst hup
      exact ⟨le_refl 0, le_refl 0⟩

/-- In every reachable state, an empty vertex set comes with an empty
generated sequence and zeroed counters. -/
lemma reachable_empty_clean (g : SierpinskiGraph) (hg : Reachable g) :
    g.fix_points = [] →
      g.random_points = [] ∧ g.max_iter = 0 ∧ g.cur_iter = 0 := by
  induction hg with
  | init => intro _; exact ⟨rfl, rfl, rfl⟩
  | step g g' rng m hg hvalid hup ih =>
    have hnn := reachable_nonneg g hg
    cases m with
    | SetMaxIter k =>
      intro hfe
      simp only [update] at hup
      obtain ⟨hfix, -, -⟩ := growPoints_fields rng _ _ _ _ _ hup
      have hfe0 : g.fix_points = [] := by
        simpa using hfix ▸ hfe
      obtain ⟨hr, hm, hc⟩ := ih hfe0
      obtain ⟨heq, hor⟩ := growPoints_empty_fix rng _ _ _ _ _ (by simpa using hfe0) hup
      have htz : usizeOfI32 k = 0 := by
        rcases hor with h | h
        · exact h
        · simpa [hr] using h
      have hk0 : k = 0 := by
        have hub : k ≤ 10000 := hvalid.2
        have := usizeOfI32_of_nonneg k hvalid.1 (by omega)
        omega
      subst heq
      simp [hr, hc, hk0]
    | SetCurIter c =>
      intro hfe
      simp only [update, Option.some_inj] at hup
      subst hup
      simp only at hfe
      obtain ⟨hr, hm, hc⟩ := ih hfe
      have h0 : (0 : ℤ) ≤ c := hvalid.1
      have hcur : (if c > g.max_iter then g.max_iter else c) = 0 := by
        by_cases hgt : c > g.max_iter
        · rw [if_pos hgt, hm]
        · rw [if_neg hgt]
          omega
      exact ⟨hr, hm, hcur⟩
    | DrawCurIter c => exact hvalid.elim
    | AddFixPoint p =>
      intro hfe
      simp only [update, Option.some_inj] at hup
      subst hup
      simp at hfe
    | RemoveFixPoint =>
      intro _
      simp only [update, Option.some_inj] at hup
      subst hup
      exact ⟨rfl, rfl, rfl⟩

lemma midpoint_self (v : Point) : Point.midpoint v v = v := by
  cases v with
  | mk x y =>
    simp only [Point.midpoint, Point.mk.injEq]
    constructor <;> ring

/-- With a single fixed vertex `v` and an all-`v` generated sequence, the
generator can only output `v` again. -/
lemma gen_rand_point_single (v : Point) (g : SierpinskiGraph) (r : ℕ)
    (hfix : g.fix_points = [v]) (hall : ∀ p ∈ g.random_points, p = v) :
    g.gen_rand_point r = some v := by
  have hne : g.fix_points ≠ [] := by rw [hfix]; simp
  have hbase : g.base_point = v := by
    unfold SierpinskiGraph.base_point
    cases hlast : g.random_points.getLast? with
    | none => simp [hfix]
    | some q =>
      obtain ⟨hq1, hq2⟩ :=
        List.mem_getLast?_eq_getLast
          (show q ∈ g.random_points.getLast? from hlast ▸ rfl)
      simp only [Option.getD_some]
      exact hall q (hq2 ▸ List.getLast_mem hq1)
  rw [gen_rand_point_eq g r hne, hbase, hfix]
  simp [Nat.mod_one, midpoint_self]

/-- With a single fixed vertex `v`, growth appends exactly the missing
number of copies of `v`. -/
lemma growPoints_single (v : Point) (rng : ℕ → ℕ) (target : ℕ) :
    ∀ (fuel pos : ℕ) (g : SierpinskiGraph), g.fix_points = [v] →
      (∀ p ∈ g.random_points, p = v) →
      target - g.random_points.length ≤ fuel →
      growPoints rng pos target fuel g = some
        { g with random_points :=
            g.random_points ++ List.replicate (target - g.random_points.length) v } := by
  intro fuel
  induction fuel with
  | zero =>
    intro pos g hfix hall hfuel
    have h0 : target - g.random_points.length = 0 := by omega
    rw [h0]
    simp [growPoints]
  | succ fuel ih =>
    intro pos g hfix hall hfuel
    by_cases hlen : g.random_points.length < target
    · have hgen := gen_rand_point_single v g (rng pos) hfix hall
      have hrec := ih (pos + 1) { g with random_points := g.random_points ++ [v] }
        hfix
        (by
          intro p hp
          rcases List.mem_append.mp hp with h | h
          · exact hall p h
          · simpa using List.mem_singleton.mp h)
        (by simp; omega)
      dsimp only at hrec
      have harr : target - (g.random_points ++ [v]).length + 1 =
          target - g.random_points.length := by simp; omega
      have hlist : (g.random_points ++ [v]) ++
          List.replicate (target - (g.random_points ++ [v]).length) v =
          g.random_points ++ List.replicate (target - g.random_points.length) v := by
        rw [List.append_assoc, List.singleton_append, ← List.replicate_succ, harr]
      rw [growPoints, if_pos hlen, hgen]
      show growPoints rng (pos + 1) target fuel
          { g with random_points := g.random_points ++ [v] } = _
      rw [hrec]
      simp only [Option.some_inj, SierpinskiGraph.mk.injEq]
      exact ⟨trivial, trivial, trivial, hlist⟩
    · have h0 : target - g.random_points.length = 0 := by omega
      rw [h0, growPoints_of_le rng pos target (fuel + 1) g (by omega)]
      simp

/-! ## Claims -/

/-- C1: for every non-empty fixed vertex set, `gen_rand_point` returns the
exact componentwise midpoint `((base.x + target.x) / 2, (base.y + target.y) / 2)`,
where `target` is the vertex at the randomly chosen index in
`[0, len fix_points)` and `base` is the last generated point if one exists,
otherwise the first fixed vertex (`base_point`). -/
theorem C1_gen_rand_point_midpoint (g : SierpinskiGraph) (r : ℕ)
    (hfix : g.fix_points ≠ []) :
    ∃ idx : ℕ, idx < g.fix_points.length ∧
      ∃ p, g.gen_rand_point r = some p ∧
        p.x = (g.base_point.x + (g.fix_points.getD idx ⟨0, 0⟩).x) / 2 ∧
        p.y = (g.base_point.y + (g.fix_points.getD idx ⟨0, 0⟩).y) / 2 := by
  refine ⟨r % g.fix_points.length, Nat.mod_lt _ (List.length_pos.mpr hfix),
    _, gen_rand_point_eq g r hfix, ?_, ?_⟩ <;>
    simp [Point.midpoint] <;> ring

/-- Witness for C1 at the single-vertex state `(1, 2)` with stream value 0. -/
theorem C1_witness :
    ∃ idx : ℕ,
      idx < (SierpinskiGraph.mk 0 0 [⟨1, 2⟩] []).fix_points.length ∧
      ∃ p, (SierpinskiGraph.mk 0 0 [⟨1, 2⟩] []).gen_rand_point 0 = some p ∧
        p.x = ((SierpinskiGraph.mk 0 0 [⟨1, 2⟩] []).base_point.x +
          ((SierpinskiGraph.mk 0 0 [⟨1, 2⟩] []).fix_points.getD idx ⟨0, 0⟩).x) / 2 ∧
        p.y = ((SierpinskiGraph.mk 0 0 [⟨1, 2⟩] []).base_point.y +
          ((SierpinskiGraph.mk 0 0 [⟨1, 2⟩] []).fix_points.getD idx ⟨0, 0⟩).y) / 2 :=
  C1_gen_rand_point_midpoint (SierpinskiGraph.mk 0 0 [⟨1, 2⟩] []) 0 (by simp)

/-- C4: after `AddFixPoint p` (which appends `p` to the vertex list) and
after `RemoveFixPoint`, the generated sequence is empty and both counters
are zero, from any prior state whatsoever. -/
theorem C4_add_remove_reset (g : SierpinskiGraph) (rng : ℕ → ℕ) (p : Point) :
    (∃ g', update g rng (.AddFixPoint p) = some g' ∧
      g'.random_points = [] ∧ g'.max_iter = 0 ∧ g'.cur_iter = 0 ∧
      g'.fix_points = g.fix_points ++ [p]) ∧
    (∃ g', update g rng .RemoveFixPoint = some g' ∧
      g'.random_points = [] ∧ g'.max_iter = 0 ∧ g'.cur_iter = 0 ∧
      g'.fix_points = g.fix_points.dropLast) :=
  ⟨⟨_, rfl, rfl, rfl, rfl, rfl⟩, ⟨_, rfl, rfl, rfl, rfl, rfl⟩⟩

/-- C6: with an empty vertex set, point generation panics (`gen_range` on
the empty range `0..0`), and so does a `SetMaxIter` whose target exceeds the
current sequence length; with a non-empty vertex set the chosen index is in
bounds and generation always produces a point. -/
theorem C6_empty_vertex_guard (g : SierpinskiGraph) (r : ℕ) (rng : ℕ → ℕ)
    (k : ℤ) :
    (g.fix_points = [] → g.gen_rand_point r = none) ∧
    (g.fix_points = [] → g.random_points.length < usizeOfI32 k →
      update g rng (.SetMaxIter k) = none) ∧
    (g.fix_points ≠ [] →
      r % g.fix_points.length < g.fix_points.length ∧
      ∃ p, g.gen_rand_point r = some p) := by
  refine ⟨fun h => gen_rand_point_empty g r h, fun h hlen => ?_,
    fun h => ⟨Nat.mod_lt _ (List.length_pos.mpr h), gen_rand_point_isSome g r h⟩⟩
  simp only [update]
  cases hT : usizeOfI32 k with
  | zero => omega
  | succ t =>
    rw [hT] at hlen
    have hnone := gen_rand_point_empty { g with max_iter := k } (rng 0)
      (by simpa using h)
    rw [growPoints, if_pos (by simpa using hlen), hnone]

/-- Witness for C6: the initial state has no vertices, so generation and
`SetMaxIter 1` panic there; a one-vertex state generates successfully. -/
theorem C6_witness :
    SierpinskiGraph.new.gen_rand_point 0 = none ∧
    update SierpinskiGraph.new rng0 (Message.SetMaxIter 1) = none ∧
    (0 % (SierpinskiGraph.mk 0 0 [⟨1, 1⟩] []).fix_points.length <
        (SierpinskiGraph.mk 0 0 [⟨1, 1⟩] []).fix_points.length ∧
      ∃ p, (SierpinskiGraph.mk 0 0 [⟨1, 1⟩] []).gen_rand_point 0 = some p) :=
  ⟨(C6_empty_vertex_guard SierpinskiGraph.new 0 rng0 1).1 rfl,
    (C6_empty_vertex_guard SierpinskiGraph.new 0 rng0 1).2.1 rfl (by decide),
    (C6_empty_vertex_guard (SierpinskiGraph.mk 0 0 [⟨1, 1⟩] []) 0 rng0 1).2.2
      (by simp)⟩

/-- C8: `SetCurIter c` modifies only `cur_iter`: the vertex list, the
generated sequence, and `max_iter` are unchanged; only the drawn slice
`random_points[0 .. cur_iter)` (`visible_points`) depends on the change. -/
theorem C8_setCurIter_frame (g : SierpinskiGraph) (rng : ℕ → ℕ) (c : ℤ) :
    ∃ g', update g rng (.SetCurIter c) = some g' ∧
      g'.fix_points = g.fix_points ∧
      g'.random_points = g.random_points ∧
      g'.max_iter = g.max_iter ∧
      g'.visible_points = g.random_points.take (usizeOfI32 g'.cur_iter) :=
  ⟨_, rfl, rfl, rfl, rfl, rfl⟩

/-- C9: a left press with the cursor inside the canvas produces
`AddFixPoint` at the in-bounds cursor position (which appends exactly that
position as a vertex); a right press produces `RemoveFixPoint`; any event
with the cursor outside the bounds is ignored and produces no message. -/
theorem C9_pointer_mapping (pos : Point) (ev : CanvasEvent)
    (g : SierpinskiGraph) (rng : ℕ → ℕ) :
    programUpdate (.Mouse (.ButtonPressed .Left)) (some pos) =
      (.Captured, some (.AddFixPoint pos)) ∧
    programUpdate (.Mouse (.ButtonPressed .Right)) (some pos) =
      (.Captured, some .RemoveFixPoint) ∧
    programUpdate ev none = (.Ignored, none) ∧
    ∃ g', update g rng (.AddFixPoint pos) = some g' ∧
      g'.fix_points = g.fix_points ++ [pos] :=
  ⟨rfl, rfl, rfl, _, rfl, rfl⟩

/-- C3 (counterexample to the claim as stated): the invariant
`0 ≤ curIter ≤ maxIter` is *not* preserved by every message the
application processes.  The reachable state produced by
`AddFixPoint (0,0)`, `SetMaxIter 2`, `SetCurIter 1`, `SetMaxIter 0`
(all deliverable messages) has `cur_iter = 1 > 0 = max_iter`, because the
`SetMaxIter` arm never clamps `cur_iter` when it lowers `max_iter`. -/
theorem C3_counterexample :
    Reachable (SierpinskiGraph.mk 0 1 [⟨0, 0⟩] [⟨0, 0⟩, ⟨0, 0⟩]) ∧
    ¬ ((SierpinskiGraph.mk 0 1 [⟨0, 0⟩] [⟨0, 0⟩, ⟨0, 0⟩]).cur_iter ≤
        (SierpinskiGraph.mk 0 1 [⟨0, 0⟩] [⟨0, 0⟩, ⟨0, 0⟩]).max_iter) := by
  constructor
  · have hu1 : update SierpinskiGraph.new rng0 (Message.AddFixPoint ⟨0, 0⟩) =
        some (SierpinskiGraph.mk 0 0 [⟨0, 0⟩] []) := rfl
    have hu2 : update (SierpinskiGraph.mk 0 0 [⟨0, 0⟩] []) rng0
        (Message.SetMaxIter 2) =
        some (SierpinskiGraph.mk 2 0 [⟨0, 0⟩] [⟨0, 0⟩, ⟨0, 0⟩]) := by
      show growPoints rng0 0 (usizeOfI32 2) (usizeOfI32 2)
        (SierpinskiGraph.mk 2 0 [⟨0, 0⟩] []) = _
      rw [show usizeOfI32 2 = 2 from by decide,
        growPoints_single ⟨0, 0⟩ rng0 2 2 0
          (SierpinskiGraph.mk 2 0 [⟨0, 0⟩] []) rfl (by simp) (by simp)]
      rfl
    have hu3 : update (SierpinskiGraph.mk 2 0 [⟨0, 0⟩] [⟨0, 0⟩, ⟨0, 0⟩]) rng0
        (Message.SetCurIter 1) =
        some (SierpinskiGraph.mk 2 1 [⟨0, 0⟩] [⟨0, 0⟩, ⟨0, 0⟩]) := rfl
    have hu4 : update (SierpinskiGraph.mk 2 1 [⟨0, 0⟩] [⟨0, 0⟩, ⟨0, 0⟩]) rng0
        (Message.SetMaxIter 0) =
        some (SierpinskiGraph.mk 0 1 [⟨0, 0⟩] [⟨0, 0⟩, ⟨0, 0⟩]) := by
      show growPoints rng0 0 (usizeOfI32 0) (usizeOfI32 0)
        (SierpinskiGraph.mk 0 1 [⟨0, 0⟩] [⟨0, 0⟩, ⟨0, 0⟩]) = _
      rw [show usizeOfI32 0 = 0 from by decide]
      rfl
    have h1 := Reachable.step _ _ rng0 (Message.AddFixPoint ⟨0, 0⟩)
      Reachable.init trivial hu1
    have h2 := Reachable.step _ _ rng0 (Message.SetMaxIter 2) h1
      ⟨by decide, by decide⟩ hu2
    have h3 := Reachable.step _ _ rng0 (Message.SetCurIter 1) h2
      ⟨by decide, by decide⟩ hu3
    exact Reachable.step _ _ rng0 (Message.SetMaxIter 0) h3
      ⟨by decide, by decide⟩ hu4
  · decide

/-- C3 (amended): in every reachable state, processing a slider-delivered
`SetCurIter c` (so `0 ≤ c`) yields `cur_iter = min c max_iter`, which is
never negative and never exceeds `max_iter`.  (The stronger original claim,
that `0 ≤ cur_iter ≤ max_iter` is preserved by *every* message, fails: a
`SetMaxIter` that lowers `max_iter` below `cur_iter` breaks it.) -/
theorem C3_setCurIter_clamped (g g' : SierpinskiGraph) (rng : ℕ → ℕ) (c : ℤ)
    (hg : Reachable g) (hc0 : 0 ≤ c)
    (hup : update g rng (.SetCurIter c) = some g') :
    g'.cur_iter = min c g.max_iter ∧ 0 ≤ g'.cur_iter ∧
      g'.cur_iter ≤ g'.max_iter := by
  have hnn := reachable_nonneg g hg
  simp only [update, Option.some_inj] at hup
  subst hup
  refine ⟨?_, ?_, ?_⟩
  · show (if c > g.max_iter then g.max_iter else c) = min c g.max_iter
    by_cases hgt : c > g.max_iter
    · rw [if_pos hgt]; omega
    · rw [if_neg hgt]; omega
  · show (0 : ℤ) ≤ (if c > g.max_iter then g.max_iter else c)
    by_cases hgt : c > g.max_iter
    · rw [if_pos hgt]; exact hnn.1
    · rw [if_neg hgt]; exact hc0
  · show (if c > g.max_iter then g.max_iter else c) ≤ g.max_iter
    by_cases hgt : c > g.max_iter
    · rw [if_pos hgt]
    · rw [if_neg hgt]; omega

/-- Witness for the amended C3 at the initial state with `c = 0`. -/
theorem C3_witness :
    SierpinskiGraph.new.cur_iter = min 0 SierpinskiGraph.new.max_iter ∧
    0 ≤ SierpinskiGraph.new.cur_iter ∧
    SierpinskiGraph.new.cur_iter ≤ SierpinskiGraph.new.max_iter :=
  C3_setCurIter_clamped SierpinskiGraph.new SierpinskiGraph.new rng0 0
    Reachable.init (by decide) (by decide)

/-- C7: in every reachable state with no fixed vertices, `RemoveFixPoint`
leaves the entire state unchanged (`Vec::pop` on the empty vector silently
no-ops, the sequence was already empty, and the counters were already 0). -/
theorem C7_remove_on_empty (g : SierpinskiGraph) (rng : ℕ → ℕ)
    (hg : Reachable g) (hfix : g.fix_points = []) :
    update g rng Message.RemoveFixPoint = some g := by
  obtain ⟨hr, hm, hc⟩ := reachable_empty_clean g hg hfix
  simp only [update, Option.some_inj]
  cases g with
  | mk mi ci fp rp =>
    simp only at hfix hr hm hc
    subst hfix hr hm hc
    rfl

/-- Witness for C7 at the initial state. -/
theorem C7_witness :
    update SierpinskiGraph.new rng0 Message.RemoveFixPoint =
      some SierpinskiGraph.new :=
  C7_remove_on_empty SierpinskiGraph.new rng0 Reachable.init rfl

/-- C10: with a single fixed vertex `v` (and all previously generated
points equal to `v`, as in any run), every generated point equals `v`:
`gen_rand_point` returns `v` itself, and growing the sequence to any
length via `SetMaxIter` yields a sequence whose elements are all `v`. -/
theorem C10_single_vertex (v : Point) (g : SierpinskiGraph) (rng : ℕ → ℕ)
    (k : ℤ) (r : ℕ) (hfix : g.fix_points = [v])
    (hall : ∀ p ∈ g.random_points, p = v) :
    g.gen_rand_point r = some v ∧
    ∃ g', update g rng (.SetMaxIter k) = some g' ∧
      ∀ p ∈ g'.random_points, p = v := by
  have hne : g.fix_points ≠ [] := by rw [hfix]; simp
  constructor
  · exact gen_rand_point_single v g r hfix hall
  · simp only [update]
    obtain ⟨g', hg', -, -, -, -, -⟩ :=
      growPoints_spec rng (usizeOfI32 k) (usizeOfI32 k) 0
        { g with max_iter := k } (by simpa using hne) (by omega)
    refine ⟨g', hg', ?_⟩
    refine growPoints_preserves (fun p => p = v) ?_ rng (usizeOfI32 k)
      (usizeOfI32 k) 0 _ g' hg' (by simp [hfix]) (by simpa using hall)
    intro a b ha hb
    rw [ha, hb, midpoint_self]

/-- Witness for C10 at the one-vertex state `(3, 7)`. -/
theorem C10_witness :
    (SierpinskiGraph.mk 0 0 [⟨3, 7⟩] []).gen_rand_point 5 =
      some ⟨3, 7⟩ ∧
    ∃ g', update (SierpinskiGraph.mk 0 0 [⟨3, 7⟩] []) rng0
        (Message.SetMaxIter 2) = some g' ∧
      ∀ p ∈ g'.random_points, p = (⟨3, 7⟩ : Point) :=
  C10_single_vertex ⟨3, 7⟩ (SierpinskiGraph.mk 0 0 [⟨3, 7⟩] []) rng0 2 5
    rfl (by simp)

/-- C2 (counterexample to the claim as stated): the claim quantifies over
*every* value `k`, but `SetMaxIter (-1)` does not leave the sequence at
length `max (-1) previousLength = previousLength`: the cast
`max_iter as usize` sign-extends `-1` to `2^64 - 1`, so the loop grows the
sequence to `2^64 - 1` points. -/
theorem C2_counterexample :
    (update (SierpinskiGraph.mk 0 0 [⟨0, 0⟩] []) rng0
        (Message.SetMaxIter (-1))).map
        (fun g' => (g'.random_points.length : ℤ)) = some (2 ^ 64 - 1) ∧
    (2 ^ 64 - 1 : ℤ) ≠
      max (-1) (((SierpinskiGraph.mk 0 0 [⟨0, 0⟩] []).random_points.length : ℤ)) := by
  constructor
  · obtain ⟨g', hg', hlen, -, -, -, -⟩ :=
      growPoints_spec rng0 (usizeOfI32 (-1)) (usizeOfI32 (-1)) 0
        (SierpinskiGraph.mk (-1) 0 [⟨0, 0⟩] []) (by simp) (by omega)
    have hT : usizeOfI32 (-1) = 2 ^ 64 - 1 := by decide
    have hlen' : g'.random_points.length = max (usizeOfI32 (-1)) 0 := hlen
    have hg2 : growPoints rng0 0 (usizeOfI32 (-1)) (usizeOfI32 (-1))
        { SierpinskiGraph.mk 0 0 [⟨0, 0⟩] [] with max_iter := (-1 : ℤ) } =
        some g' := hg'
    simp only [update]
    rw [hg2]
    show some ((g'.random_points.length : ℤ)) = some (2 ^ 64 - 1)
    rw [Option.some_inj]
    omega
  · decide

/-- C2 (amended): for every state with a non-empty vertex set and every
*non-negative* `i32` value `k`, `SetMaxIter k` succeeds and leaves the
sequence at length exactly `max k previousLength`, never removes points
(the previous sequence is an unchanged initial segment), a second
`SetMaxIter k` yields the same sequence, and `k ≤ previousLength` leaves
the sequence untouched.  (For negative `k` the claim fails: the `as usize`
cast sign-extends, see the counterexample.) -/
theorem C2_setMaxIter_grow (g : SierpinskiGraph) (rng rng' : ℕ → ℕ) (k : ℤ)
    (hfix : g.fix_points ≠ []) (hk0 : 0 ≤ k) (hk1 : k < 2 ^ 31) :
    ∃ g', update g rng (.SetMaxIter k) = some g' ∧
      (g'.random_points.length : ℤ) = max k (g.random_points.length : ℤ) ∧
      g'.random_points.take g.random_points.length = g.random_points ∧
      (∃ g'', update g' rng' (.SetMaxIter k) = some g'' ∧
        g''.random_points = g'.random_points) ∧
      (k ≤ (g.random_points.length : ℤ) →
        g'.random_points = g.random_points) := by
  have hT : (usizeOfI32 k : ℤ) = k := usizeOfI32_of_nonneg k hk0 (by omega)
  obtain ⟨g', hg', hlen, htake, hfixe, hmaxe, hcure⟩ :=
    growPoints_spec rng (usizeOfI32 k) (usizeOfI32 k) 0 { g with max_iter := k }
      (by simpa using hfix) (by omega)
  have hlen' : g'.random_points.length =
      max (usizeOfI32 k) g.random_points.length := hlen
  have htake' : g'.random_points.take g.random_points.length =
      g.random_points := htake
  refine ⟨g', by simpa only [update] using hg', by omega, htake', ?_, ?_⟩
  · refine ⟨{ g' with max_iter := k }, ?_, rfl⟩
    simp only [update]
    exact growPoints_of_le rng' 0 (usizeOfI32 k) (usizeOfI32 k) _
      (show usizeOfI32 k ≤ g'.random_points.length by omega)
  · intro hk
    have hnoop := growPoints_of_le rng 0 (usizeOfI32 k) (usizeOfI32 k)
      { g with max_iter := k }
      (show usizeOfI32 k ≤ g.random_points.length by omega)
    rw [hnoop] at hg'
    have hgg : g' = { g with max_iter := k } := (Option.some_inj.mp hg').symm
    rw [hgg]

/-- Witness for the amended C2 at a one-vertex state with `k = 3`. -/
theorem C2_witness :
    ∃ g', update (SierpinskiGraph.mk 0 0 [⟨0, 0⟩] []) rng0
        (Message.SetMaxIter 3) = some g' ∧
      (g'.random_points.length : ℤ) =
        max 3 (((SierpinskiGraph.mk 0 0 [⟨0, 0⟩] []).random_points.length : ℤ)) ∧
      g'.random_points.take
          (SierpinskiGraph.mk 0 0 [⟨0, 0⟩] []).random_points.length =
        (SierpinskiGraph.mk 0 0 [⟨0, 0⟩] []).random_points ∧
      (∃ g'', update g' rng0 (Message.SetMaxIter 3) = some g'' ∧
        g''.random_points = g'.random_points) ∧
      ((3 : ℤ) ≤ ((SierpinskiGraph.mk 0 0 [⟨0, 0⟩] []).random_points.length : ℤ) →
        g'.random_points = (SierpinskiGraph.mk 0 0 [⟨0, 0⟩] []).random_points) :=
  C2_setMaxIter_grow (SierpinskiGraph.mk 0 0 [⟨0, 0⟩] []) rng0 rng0 3
    (by simp) (by decide) (by decide)

/-- C5: starting from the empty state, adding `(100,100)`, `(0,0)`,
`(200,0)` and then processing `SetMaxIter 5` yields (for every random
stream) exactly 5 generated points, the first of which is the midpoint of
`(100,100)` and one of the three vertices, and all of which lie in the
bounding box `[0,200] × [0,100]` of the three vertices. -/
theorem C5_scenario (rng : ℕ → ℕ) :
    ∃ g',
      ((update SierpinskiGraph.new rng (.AddFixPoint ⟨100, 100⟩)).bind fun g1 =>
        (update g1 rng (.AddFixPoint ⟨0, 0⟩)).bind fun g2 =>
          (update g2 rng (.AddFixPoint ⟨200, 0⟩)).bind fun g3 =>
            update g3 rng (.SetMaxIter 5)) = some g' ∧
      g'.random_points.length = 5 ∧
      (∃ v ∈ [(⟨100, 100⟩ : Point), ⟨0, 0⟩, ⟨200, 0⟩],
        g'.random_points.head? = some (Point.midpoint v ⟨100, 100⟩)) ∧
      ∀ p ∈ g'.random_points, inBox p := by
  have hp1 : (SierpinskiGraph.mk 5 0 [⟨100, 100⟩, ⟨0, 0⟩, ⟨200, 0⟩] []).gen_rand_point
      (rng 0) = some (Point.midpoint
        ([(⟨100, 100⟩ : Point), ⟨0, 0⟩, ⟨200, 0⟩].getD (rng 0 % 3) ⟨0, 0⟩)
        ⟨100, 100⟩) :=
    gen_rand_point_eq _ (rng 0) (by simp)
  have hstep : growPoints rng 0 5 5
      (SierpinskiGraph.mk 5 0 [⟨100, 100⟩, ⟨0, 0⟩, ⟨200, 0⟩] []) =
      growPoints rng 1 5 4
      (SierpinskiGraph.mk 5 0 [⟨100, 100⟩, ⟨0, 0⟩, ⟨200, 0⟩]
        [Point.midpoint
          ([(⟨100, 100⟩ : Point), ⟨0, 0⟩, ⟨200, 0⟩].getD (rng 0 % 3) ⟨0, 0⟩)
          ⟨100, 100⟩]) := rfl
  obtain ⟨g', hg', hlen, htake, -, -, -⟩ :=
    growPoints_spec rng 5 4 1
      (SierpinskiGraph.mk 5 0 [⟨100, 100⟩, ⟨0, 0⟩, ⟨200, 0⟩]
        [Point.midpoint
          ([(⟨100, 100⟩ : Point), ⟨0, 0⟩, ⟨200, 0⟩].getD (rng 0 % 3) ⟨0, 0⟩)
          ⟨100, 100⟩]) (by simp) (by simp)
  have hgrow : growPoints rng 0 5 5
      (SierpinskiGraph.mk 5 0 [⟨100, 100⟩, ⟨0, 0⟩, ⟨200, 0⟩] []) = some g' := by
    rw [hstep, hg']
  refine ⟨g', ?_, ?_, ?_, ?_⟩
  · show growPoints rng 0 (usizeOfI32 5) (usizeOfI32 5)
      (SierpinskiGraph.mk 5 0 [⟨100, 100⟩, ⟨0, 0⟩, ⟨200, 0⟩] []) = some g'
    rw [show usizeOfI32 5 = 5 from by decide]
    exact hgrow
  · rw [hlen]
    rfl
  · refine ⟨[(⟨100, 100⟩ : Point), ⟨0, 0⟩, ⟨200, 0⟩].getD (rng 0 % 3) ⟨0, 0⟩,
      ?_, ?_⟩
    · have h3 : rng 0 % 3 = 0 ∨ rng 0 % 3 = 1 ∨ rng 0 % 3 = 2 := by omega
      rcases h3 with h | h | h <;> rw [h] <;> simp
    · dsimp only at htake
      simp only [List.length_singleton] at htake
      cases hrp : g'.random_points with
      | nil => rw [hrp] at htake; simp at htake
      | cons a t =>
        rw [hrp] at htake
        simp only [List.take_succ_cons, List.take_zero, List.cons.injEq,
          and_true] at htake
        simp [htake]
  · refine growPoints_preserves inBox ?_ rng 5 5 0 _ g' hgrow ?_ ?_
    · intro a b ha hb
      obtain ⟨ha1, ha2, ha3, ha4⟩ := ha
      obtain ⟨hb1, hb2, hb3, hb4⟩ := hb
      refine ⟨?_, ?_, ?_, ?_⟩ <;> simp only [Point.midpoint] <;> linarith
    · intro p hp
      simp only [List.mem_cons, List.not_mem_nil, or_false] at hp
      rcases hp with h | h | h <;> subst h <;>
        exact ⟨by norm_num, by norm_num, by norm_num, by norm_num⟩
    · intro p hp
      simp at hp

end Sierpinski
